import Mathlib

/-!
Verification of the cheapskate instance-scheduling policy engine
(`cheapskate.py`) against its natural-language specification.

The shallow embedding below translates the policy tag codec, the schedule
policy dictionary, and the `Instance` methods `save`, `as_dict`,
`shutdown_due`, `start_business_hours`, `update`, and `shutdown` into pure
Lean functions.  Python strings are modelled as `List Char`; Python dicts as
insertion-ordered association lists with Python's replace-in-place /
append-at-end update semantics; `datetime` instants as exact rationals
counting minutes since 0001-01-01T00:00 (fractional part = seconds and
microseconds); Python floats as exact rationals; a raised exception as
`Option.none`; and external side effects (the aws CLI calls and the uwsgi
cache) as an explicit effect list.
-/

namespace Cheapskate

/-- Python strings are modelled as lists of characters. -/
abbrev Str := List Char

/-- The subset of `str.isspace` characters Python's `str.strip()` removes
that is relevant here (space, tab, newline, carriage return, vertical tab,
form feed). -/
def pyIsSpace (c : Char) : Bool :=
  (c == ' ') || (c == '\t') || (c == '\n') || (c == '\r') ||
  (c == '\x0b') || (c == '\x0c')

/-- Python `s.strip()`: remove leading and trailing whitespace. -/
def pyStrip (s : Str) : Str :=
  ((s.dropWhile pyIsSpace).reverse.dropWhile pyIsSpace).reverse

/-- Python `s.split(c)` for a one-character separator: split on every
occurrence, never merging, so `"".split(c) = [""]`.  Always returns at
least one piece. -/
def splitCh (c : Char) : Str → List Str
  | [] => [[]]
  | x :: xs =>
    match splitCh c xs with
    | [] => [[]]
    | r :: rs => if x = c then [] :: r :: rs else (x :: r) :: rs

/-- Python `c.join(pieces)` for a one-character separator. -/
def joinCh (c : Char) : List Str → Str
  | [] => []
  | [x] => x
  | x :: y :: rest => x ++ c :: joinCh c (y :: rest)

/-- A Python dictionary value: either a string, or an opaque non-string
object (the product JSON blob stored by `as_dict`), carried by an opaque
representation. -/
inductive PyVal where
  | str : Str → PyVal
  | obj : Str → PyVal
deriving DecidableEq

/-- A Python dict with string keys, modelled as an insertion-ordered
association list with unique keys. -/
abbrev Dict := List (Str × PyVal)

/-- Python `d[k] = v` / one step of `d.update`: replace in place when the
key is present, append at the end otherwise. -/
def dictSet : Dict → Str → PyVal → Dict
  | [], k, v => [(k, v)]
  | (k0, v0) :: rest, k, v =>
    if k0 = k then (k0, v) :: rest else (k0, v0) :: dictSet rest k v

/-- Python `d[k]` for the string-valued policy keys; the four recognized
keys are always present (the dict starts from the class defaults), so the
`[]` default for a missing or non-string entry is never hit by the
translated code paths. -/
def getStr : Dict → Str → Str
  | [], _ => []
  | (k0, v0) :: rest, k =>
    if k0 = k then (match v0 with | .str s => s | .obj _ => []) else getStr rest k

/-- Python `k in d`. -/
def dictHasKey : Dict → Str → Bool
  | [], _ => false
  | (k0, _) :: rest, k => (k0 == k) || dictHasKey rest k

def keyGrp : Str := ['g', 'r', 'p']
def keyUser : Str := ['u', 's', 'e', 'r']
def keyOff : Str := ['o', 'f', 'f']
def keyReq : Str := ['r', 'e', 'q']

/-- `Instance.CHEAPSKATE = { "grp": "1", "user": "", "off": "", "req": "" }`
(line 21). -/
def CHEAPSKATE : Dict :=
  [(keyGrp, .str ['1']), (keyUser, .str []), (keyOff, .str []), (keyReq, .str [])]

/-- `key in Instance.CHEAPSKATE.keys()` (line 49). -/
def recognizedKey (k : Str) : Bool :=
  (k == keyGrp) || (k == keyUser) || (k == keyOff) || (k == keyReq)

/-- The string a `PyVal` contributes to `key + "=" + value` in `save`;
the recognized keys always hold `.str` values in the translated program. -/
def valStr : PyVal → Str
  | .str s => s
  | .obj _ => []

/-- The tag emission of `Instance.save` (line 49):
`"/".join([key + "=" + value for key, value in self.cheapskate.items()
if key in Instance.CHEAPSKATE.keys()])`. -/
def encodeTag (d : Dict) : Str :=
  joinCh '/' ((d.filter (fun kv => recognizedKey kv.1)).map
    (fun kv => kv.1 ++ '=' :: valStr kv.2))

/-- Python `a.split("=")` coerced into a key/value pair; `dict(...)`
raises `ValueError` unless the split yields exactly two pieces. -/
def splitEq (a : Str) : Option (Str × Str) :=
  match splitCh '=' a with
  | [k, v] => some (k, v)
  | _ => none

/-- `dict([a.split("=") for a in cheapskate_raw.split("/")])` (line 36):
`none` models the `ValueError` raised on a malformed entry. -/
def splitPairs : List Str → Option (List (Str × Str))
  | [] => some []
  | e :: rest =>
    match splitEq e, splitPairs rest with
    | some kv, some l => some (kv :: l)
    | _, _ => none

/-- The tag parsing performed at snapshot construction
(`Instance.__init__`, lines 31-36): start from the class defaults, strip
the raw tag value, and when it is non-empty overlay the parsed `key=value`
entries onto the defaults with Python dict-update semantics.  `none`
models the `ValueError` raised on an entry without `=` (or with more than
one `=`). -/
def decodeTag (raw : Str) : Option Dict :=
  if pyStrip raw = [] then some CHEAPSKATE
  else
    match splitPairs (splitCh '/' (pyStrip raw)) with
    | some prs => some (prs.foldl (fun d kv => dictSet d kv.1 (.str kv.2)) CHEAPSKATE)
    | none => none

/-- A policy dictionary holding exactly the four recognized keys, in the
insertion order of the class defaults (the only order the program ever
produces for them). -/
def polDict (g u o r : Str) : Dict :=
  [(keyGrp, .str g), (keyUser, .str u), (keyOff, .str o), (keyReq, .str r)]

/-! ## Datetime model

A `datetime` instant is an exact rational number of minutes since
0001-01-01T00:00 (proleptic Gregorian, the calendar Python's `datetime`
uses); seconds and microseconds are the fractional part.  The civil-date
conversions are the standard constant-time era-based algorithms, valid for
every year ≥ 1. -/

def isLeap (y : Nat) : Bool :=
  (y % 4 == 0 && y % 100 != 0) || y % 400 == 0

def daysInMonth (y m : Nat) : Nat :=
  if m = 2 then (if isLeap y then 29 else 28)
  else if m = 4 ∨ m = 6 ∨ m = 9 ∨ m = 11 then 30 else 31

/-- Days since 0000-03-01 of the civil date `y-m-d` (valid for `y ≥ 1`). -/
def daysFromCivil (y m d : Nat) : Nat :=
  let y' := if m ≤ 2 then y - 1 else y
  let era := y' / 400
  let yoe := y' % 400
  let mp := (m + 9) % 12
  let doy := (153 * mp + 2) / 5 + (d - 1)
  let doe := yoe * 365 + yoe / 4 - yoe / 100 + doy
  era * 146097 + doe

/-- The civil date `(y, m, d)` of a day count since 0000-03-01. -/
def civilFromDays (z : Nat) : Nat × Nat × Nat :=
  let era := z / 146097
  let doe := z % 146097
  let yoe := (doe - doe / 1460 + doe / 36524 - doe / 146096) / 365
  let y := yoe + era * 400
  let doy := doe - (365 * yoe + yoe / 4 - yoe / 100)
  let mp := (5 * doy + 2) / 153
  let d := doy + 1 - (153 * mp + 2) / 5
  let m := if mp < 10 then mp + 3 else mp - 9
  (if m ≤ 2 then y + 1 else y, m, d)

/-- Minutes since 0001-01-01T00:00 of `y-m-dTh:mi` (0001-01-01 is day 306
of the 0000-03-01 epoch). -/
def minutesOfYMDHM (y mo d h mi : Nat) : Nat :=
  (daysFromCivil y mo d - 306) * 1440 + h * 60 + mi

def digitVal (c : Char) : Nat := c.toNat - 48

/-- Exactly four digits, as in the `%Y` pattern of Python's `strptime`. -/
def parse4Digits : Str → Option (Nat × Str)
  | c1 :: c2 :: c3 :: c4 :: rest =>
    if c1.isDigit ∧ c2.isDigit ∧ c3.isDigit ∧ c4.isDigit then
      some (1000 * digitVal c1 + 100 * digitVal c2 + 10 * digitVal c3 + digitVal c4, rest)
    else none
  | _ => none

/-- A one- or two-digit number in `[lo, hi]`, two digits preferred, as the
`%m`/`%d`/`%H`/`%M` patterns of Python's `strptime` match when followed by
a non-digit literal. -/
def parseNum2 (lo hi : Nat) : Str → Option (Nat × Str)
  | [] => none
  | [c1] =>
    if c1.isDigit ∧ lo ≤ digitVal c1 ∧ digitVal c1 ≤ hi then some (digitVal c1, [])
    else none
  | c1 :: c2 :: rest =>
    if c1.isDigit ∧ c2.isDigit ∧ lo ≤ 10 * digitVal c1 + digitVal c2 ∧
        10 * digitVal c1 + digitVal c2 ≤ hi then
      some (10 * digitVal c1 + digitVal c2, rest)
    else if c1.isDigit ∧ lo ≤ digitVal c1 ∧ digitVal c1 ≤ hi then
      some (digitVal c1, c2 :: rest)
    else none

/-- One literal character (Python compiles the format case-insensitively,
which only matters for the letter `T`). -/
def expectCh (c : Char) : Str → Option Str
  | x :: rest => if x = c then some rest else none
  | [] => none

def expectT : Str → Option Str
  | x :: rest => if x = 'T' ∨ x = 't' then some rest else none
  | [] => none

/-- `datetime.strptime(s, '%Y-%m-%dT%H:%M')` (line 20's `DATEFORMAT`),
returning minutes since 0001-01-01T00:00; `none` models the `ValueError`
raised on a malformed or out-of-range timestamp (including a day out of
range for its month, which the `datetime` constructor rejects). -/
def strptimeMin (s : Str) : Option Nat :=
  (parse4Digits s).bind fun ys =>
  (expectCh '-' ys.2).bind fun s2 =>
  (parseNum2 1 12 s2).bind fun mos =>
  (expectCh '-' mos.2).bind fun s4 =>
  (parseNum2 1 31 s4).bind fun ds =>
  (expectT ds.2).bind fun s6 =>
  (parseNum2 0 23 s6).bind fun hs =>
  (expectCh ':' hs.2).bind fun s8 =>
  (parseNum2 0 59 s8).bind fun mis =>
  if mis.2 = [] ∧ 1 ≤ ys.1 ∧ ds.1 ≤ daysInMonth ys.1 mos.1 then
    some (minutesOfYMDHM ys.1 mos.1 ds.1 hs.1 mis.1)
  else none

def digitChar (n : Nat) : Char := Char.ofNat (48 + n)

def pad2 (n : Nat) : Str := [digitChar (n / 10 % 10), digitChar (n % 10)]

def pad4 (n : Nat) : Str :=
  [digitChar (n / 1000 % 10), digitChar (n / 100 % 10),
   digitChar (n / 10 % 10), digitChar (n % 10)]

/-- `datetime.strftime(t, '%Y-%m-%dT%H:%M')`: format an instant at minute
precision (seconds and microseconds are dropped, as Python's format string
drops them).  Instants are nonnegative in the program (`datetime` cannot
represent anything before year 1). -/
def strftimeMin (q : ℚ) : Str :=
  let tm := (Rat.floor q).toNat
  let ymd := civilFromDays (tm / 1440 + 306)
  pad4 ymd.1 ++ '-' :: pad2 ymd.2.1 ++ '-' :: pad2 ymd.2.2 ++
    'T' :: pad2 (tm % 1440 / 60) ++ ':' :: pad2 (tm % 60)

/-- Python `int(x)` on a number: truncation toward zero. -/
def pyInt (q : ℚ) : ℤ :=
  if 0 ≤ q then Rat.floor q else -Rat.floor (-q)

/-- Python `a % b` on numbers for positive `b` (used for the `timedelta`
normalization in `start_business_hours`): floor modulus. -/
def pyModQ (a b : ℚ) : ℚ := a - b * ((Rat.floor (a / b) : ℤ) : ℚ)

/-! ## The instance snapshot and the engine's operations -/

/-- The snapshot of one instance: the fields of `Instance.__init__` that the
translated methods read.  `stateCode`/`stateName` are `raw["State"]["Code"]`
and `raw["State"]["Name"]`; `launchTimeMin` is `raw["LaunchTime"]` already
parsed to an instant (the provider always supplies it well-formed);
`price` is the catalog's `pricePerUnit.USD` as an exact rational; and
`productRepr` is an opaque representation of the product JSON object. -/
structure Instance where
  instance_id : Str
  name : Str
  stateCode : Nat
  stateName : Str
  instanceType : Str
  launchTimeMin : Nat
  price : ℚ
  productRepr : Str
  cheapskate : Dict
deriving DecidableEq

/-- The externally visible side effects: the aws CLI calls and the uwsgi
cache invalidation, in issue order. -/
inductive Effect where
  | startInstances : Str → Effect
  | stopInstances : Str → Effect
  | createTags : Str → Str → Effect
  | cacheDel : Effect
deriving DecidableEq

/-- `Instance.save` (lines 48-51): re-encode the whitelisted policy keys
into the cheapskate tag, write the tag, and invalidate the inventory
cache. -/
def save (i : Instance) : List Effect :=
  [.createTags i.instance_id (encodeTag i.cheapskate), .cacheDel]

/-- The guard of `Instance.update` (lines 125-130): `True` exactly when the
stored `off` deadline parses and lies strictly after the requested
deadline; an unparseable `off` is caught, logged, and treated as no
constraint. -/
def offLater (i : Instance) (reqtime : ℚ) : Bool :=
  match strptimeMin (getStr i.cheapskate keyOff) with
  | some t => decide (reqtime < (t : ℚ))
  | none => false

/-- The policy dict written by an accepted `Instance.update`
(lines 132-137): `user`, then `req = strftime(now + hours)`, then `off`,
capped to `now + COSTTHRESHOLD/price` when the request is user-initiated
(`sysstart == 0`) and `float(price) * int(hours)` reaches the threshold,
and `now + hours` otherwise. -/
def newCk (i : Instance) (now : ℚ) (user : Str) (hours : ℚ) (sysstart : Nat) : Dict :=
  if sysstart = 0 ∧ 20 ≤ i.price * ((pyInt hours : ℤ) : ℚ) then
    dictSet (dictSet (dictSet i.cheapskate keyUser (.str user))
        keyReq (.str (strftimeMin (now + 60 * hours))))
      keyOff (.str (strftimeMin (now + 60 * (20 / i.price))))
  else
    dictSet (dictSet (dictSet i.cheapskate keyUser (.str user))
        keyReq (.str (strftimeMin (now + 60 * hours))))
      keyOff (.str (strftimeMin (now + 60 * hours)))

/-- `Instance.update` (lines 123-140): reject when the stored deadline is
later than the requested one; otherwise write `user`/`req`/`off`, issue a
start, save, and return `True`. -/
def update (i : Instance) (now : ℚ) (user : Str) (hours : ℚ) (sysstart : Nat) :
    Instance × Bool × List Effect :=
  if offLater i (now + 60 * hours) then (i, false, [])
  else
    ({ i with cheapskate := newCk i now user hours sysstart }, true,
      .startInstances i.instance_id ::
        save { i with cheapskate := newCk i now user hours sysstart })

/-- The per-instance test of `Instance.shutdown_due` (lines 94-99): group
not `"1"`, state code 16 (running), and a stored `off` that parses to an
instant strictly before `now + hours`; a `ValueError` from the parse is
swallowed by the `except` clause. -/
def dueForShutdown (i : Instance) (now hours : ℚ) : Bool :=
  (!(getStr i.cheapskate keyGrp == ['1'])) && (i.stateCode == 16) &&
    (match strptimeMin (getStr i.cheapskate keyOff) with
     | some t => decide ((t : ℚ) < now + 60 * hours)
     | none => false)

/-- `Instance.shutdown_due` (lines 90-100) over the inventory listing. -/
def shutdown_due (insts : List Instance) (now hours : ℚ) : List Instance :=
  insts.filter (fun i => dueForShutdown i now hours)

/-- The return value of `Instance.shutdown`: `False`, the stop output, the
`{"offtime": ...}` JSON, or `None`. -/
inductive ShutdownRet where
  | notEligible : ShutdownRet
  | stopped : ShutdownRet
  | deferred : Str → ShutdownRet
  | unknownGroup : ShutdownRet
deriving DecidableEq

/-- `Instance.shutdown` (lines 145-156).  The `strptime` on line 149 is not
guarded by any `try`, so `none` models the `ValueError` that propagates
when the stored `off` of a group-`"0"`/`"2"` instance does not parse. -/
def shutdown (i : Instance) (now : ℚ) : Option (ShutdownRet × List Effect) :=
  if getStr i.cheapskate keyGrp = ['1'] then some (.notEligible, [])
  else if getStr i.cheapskate keyGrp = ['0'] ∨ getStr i.cheapskate keyGrp = ['2'] then
    match strptimeMin (getStr i.cheapskate keyOff) with
    | none => none
    | some t =>
      if (t : ℚ) < now then
        some (.stopped, .stopInstances i.instance_id :: save i)
      else
        some (.deferred (getStr i.cheapskate keyOff), [])
  else some (.unknownGroup, [])

/-- `dt.today().weekday()`: days since 0001-01-01 (a Monday) modulo 7. -/
def weekdayOf (now : ℚ) : Nat := (Rat.floor now).toNat / 1440 % 7

/-- `dt.now().time()` as minutes (with fractional seconds) into the day. -/
def todMinutes (now : ℚ) : ℚ := pyModQ now 1440

/-- `Instance.BUSINESSDAYSOFWEEK = range(0,5)` (line 26). -/
def BUSINESSDAYSOFWEEK : List Nat := List.range 5

/-- 0001-01-01T00:00-based instant of `strptime('18:30', '%H:%M')`, whose
default date is 1900-01-01. -/
def bhEndInstant : ℚ := (minutesOfYMDHM 1900 1 1 18 30 : Nat)

/-- `hours = (dtend - dt.now()).seconds / 3600` (line 106): the `seconds`
field of the normalized (negative) `timedelta`, true-divided by 3600. -/
def bhHoursRemaining (now : ℚ) : ℚ :=
  ((Rat.floor (pyModQ ((bhEndInstant - now) * 60) 86400) : ℤ) : ℚ) / 3600

/-- One iteration of the loop in `start_business_hours` (lines 116-120):
skip instances outside group `"2"` or not stopped (code 80); otherwise
record the id and apply `update(user="Cheapskate", hours=hours, sysstart=1)`
to the instance. -/
def bhStep (now hrs : ℚ) (acc : List Str × List Instance × List Effect)
    (i : Instance) : List Str × List Instance × List Effect :=
  if getStr i.cheapskate keyGrp ≠ ['2'] ∨ i.stateCode ≠ 80 then
    (acc.1, acc.2.1 ++ [i], acc.2.2)
  else
    (acc.1 ++ [i.instance_id],
     acc.2.1 ++ [(update i now (['C', 'h', 'e', 'a', 'p', 's', 'k', 'a', 't', 'e']) hrs 1).1],
     acc.2.2 ++ (update i now (['C', 'h', 'e', 'a', 'p', 's', 'k', 'a', 't', 'e']) hrs 1).2.2)

/-- `Instance.start_business_hours` (lines 102-121): `none` models the
`False` returned by the three early exits (not a business day, before
06:30 = minute 390, strictly after 18:30 = minute 1110); otherwise the
collected ids, the updated inventory, and the issued effects. -/
def start_business_hours (insts : List Instance) (now : ℚ) :
    Option (List Str) × List Instance × List Effect :=
  if weekdayOf now ∉ BUSINESSDAYSOFWEEK then (none, insts, [])
  else if todMinutes now < 390 then (none, insts, [])
  else if todMinutes now > 1110 then (none, insts, [])
  else
    match insts.foldl (bhStep now (bhHoursRemaining now)) ([], [], []) with
    | (ids, insts', effs) => (some ids, insts', effs)

/-- `"%.3f" % float(self.price)` (line 77) for the nonnegative catalog
price, in exact arithmetic. -/
def hourlycost3 (q : ℚ) : Str :=
  let n := (Rat.floor (q * 1000 + 1 / 2)).toNat
  (Nat.repr (n / 1000)).data ++ '.' ::
    [digitChar (n % 1000 / 100), digitChar (n % 1000 / 10 % 10), digitChar (n % 10)]

/-- `Instance.as_dict` (lines 70-79).  `data = self.cheapskate` aliases the
snapshot's own policy dict, so the derived keys are written into the
stored policy itself; the functional rendering returns the updated
snapshot together with the returned mapping. -/
def as_dict (i : Instance) : Instance × Dict :=
  let d :=
    dictSet (dictSet (dictSet (dictSet (dictSet (dictSet (dictSet i.cheapskate
      (['n', 'a', 'm', 'e']) (.str i.name))
      (['i', 'd']) (.str i.instance_id))
      (['s', 't', 'a', 't', 'u', 's']) (.str i.stateName))
      (['t', 'y', 'p', 'e']) (.str i.instanceType))
      (['l', 'a', 'u', 'n', 'c', 'h', 't', 'i', 'm', 'e'])
        (.str (strftimeMin (i.launchTimeMin : ℚ))))
      (['h', 'o', 'u', 'r', 'l', 'y', 'c', 'o', 's', 't']) (.str (hourlycost3 i.price)))
      (['p', 'r', 'o', 'd', 'u', 'c', 't']) (.obj i.productRepr)
  ({ i with cheapskate := d }, d)

/-- A snapshot with the given id, state code, price and policy dict (the
remaining fields play no role in the scheduling claims). -/
def mkInst (id : Str) (state : Nat) (price : ℚ) (ck : Dict) : Instance :=
  { instance_id := id, name := [], stateCode := state, stateName := [],
    instanceType := [], launchTimeMin := 0, price := price,
    productRepr := [], cheapskate := ck }

/-- 2026-10-12T09:00, a Monday morning, used as a concrete `now`. -/
def nowW : ℚ := (minutesOfYMDHM 2026 10 12 9 0 : Nat)

/-- 2026-10-12T18:30, a Monday at exactly the business-hours end. -/
def nMon1830 : ℚ := (minutesOfYMDHM 2026 10 12 18 30 : Nat)

/-- 2026-10-17T12:00, a Saturday noon. -/
def nSat : ℚ := (minutesOfYMDHM 2026 10 17 12 0 : Nat)

/-- The tag text `2031-01-01T00:00`, a deadline after `nowW`. -/
def offFuture : Str :=
  ['2', '0', '3', '1', '-', '0', '1', '-', '0', '1', 'T', '0', '0', ':', '0', '0']

/-- The tag text `2026-10-12T08:00`, a deadline before `nowW`. -/
def offPast : Str :=
  ['2', '0', '2', '6', '-', '1', '0', '-', '1', '2', 'T', '0', '8', ':', '0', '0']

/-! ## Helper lemmas -/

theorem length_dropWhile_le_cs (p : Char → Bool) (l : Str) :
    (List.dropWhile p l).length ≤ l.length := by
  induction l with
  | nil => simp
  | cons a l ih =>
    rw [List.dropWhile_cons]
    split
    · exact le_trans ih (Nat.le_succ _)
    · simp

theorem head_keep_of_dropWhile_fix {p : Char → Bool} {a : Char} {l : Str}
    (h : List.dropWhile p (a :: l) = a :: l) : p a = false := by
  by_cases hp : p a = true
  · rw [List.dropWhile_cons, if_pos hp] at h
    have := length_dropWhile_le_cs p l
    rw [h] at this
    simp at this
  · simpa using hp

theorem dropWhile_cons_append_fix (p : Char → Bool) (a : Char) (l m : Str)
    (ha : p a = false) :
    List.dropWhile p ((a :: l) ++ m) = (a :: l) ++ m := by
  simp [List.dropWhile_cons, ha]

theorem splitCh_ne_nil (c : Char) (l : Str) : splitCh c l ≠ [] := by
  induction l with
  | nil => simp [splitCh]
  | cons x xs ih =>
    rw [splitCh]
    cases h : splitCh c xs with
    | nil => simp
    | cons r rs =>
      by_cases hx : x = c <;> simp [hx]

theorem splitCh_of_not_mem {c : Char} {l : Str} (h : c ∉ l) : splitCh c l = [l] := by
  induction l with
  | nil => rfl
  | cons x xs ih =>
    have hx : x ≠ c := fun he => h (he ▸ List.mem_cons_self x xs)
    have hxs : c ∉ xs := fun hm => h (List.mem_cons_of_mem x hm)
    rw [splitCh, ih hxs]
    simp [hx]

theorem splitCh_append {c : Char} {a : Str} (h : c ∉ a) (b : Str) :
    splitCh c (a ++ c :: b) = a :: splitCh c b := by
  induction a with
  | nil =>
    rw [List.nil_append, splitCh]
    cases hb : splitCh c b with
    | nil => exact absurd hb (splitCh_ne_nil c b)
    | cons r rs => simp
  | cons x xs ih =>
    have hx : x ≠ c := fun he => h (he ▸ List.mem_cons_self x xs)
    have hxs : c ∉ xs := fun hm => h (List.mem_cons_of_mem x hm)
    rw [List.cons_append, splitCh, ih hxs]
    cases hb : splitCh c b with
    | nil => exact absurd hb (splitCh_ne_nil c b)
    | cons r rs => simp [hx]

theorem getStr_dictSet_self (d : Dict) (k : Str) (v : Str) :
    getStr (dictSet d k (.str v)) k = v := by
  induction d with
  | nil => simp [dictSet, getStr]
  | cons kv rest ih =>
    obtain ⟨k0, v0⟩ := kv
    by_cases hk : k0 = k
    · simp [dictSet, hk, getStr]
    · simp [dictSet, hk, getStr, ih]

theorem getStr_dictSet_ne (d : Dict) {k' k : Str} (v : PyVal) (h : k' ≠ k) :
    getStr (dictSet d k' v) k = getStr d k := by
  induction d with
  | nil => simp [dictSet, getStr, h]
  | cons kv rest ih =>
    obtain ⟨k0, v0⟩ := kv
    by_cases hk : k0 = k'
    · subst hk
      simp [dictSet, getStr, h]
    · simp [dictSet, hk, getStr, ih]

theorem dictHasKey_dictSet_self (d : Dict) (k : Str) (v : PyVal) :
    dictHasKey (dictSet d k v) k = true := by
  induction d with
  | nil => simp [dictSet, dictHasKey]
  | cons kv rest ih =>
    obtain ⟨k0, v0⟩ := kv
    by_cases hk : k0 = k
    · simp [dictSet, hk, dictHasKey]
    · simp [dictSet, hk, dictHasKey, ih]

theorem dictHasKey_dictSet_mono (d : Dict) {k : Str} (k' : Str) (v : PyVal)
    (h : dictHasKey d k = true) : dictHasKey (dictSet d k' v) k = true := by
  induction d with
  | nil => simp [dictHasKey] at h
  | cons kv rest ih =>
    obtain ⟨k0, v0⟩ := kv
    rw [dictHasKey, Bool.or_eq_true] at h
    by_cases hk : k0 = k'
    · rw [dictSet, if_pos hk, dictHasKey, Bool.or_eq_true]
      exact h.imp id id
    · rw [dictSet, if_neg hk, dictHasKey, Bool.or_eq_true]
      exact h.imp id ih

theorem filter_recognized_dictSet {k : Str} (d : Dict) (v : PyVal)
    (h : recognizedKey k = false) :
    (dictSet d k v).filter (fun kv => recognizedKey kv.1) =
      d.filter (fun kv => recognizedKey kv.1) := by
  induction d with
  | nil => simp [dictSet, List.filter_cons, h]
  | cons kv rest ih =>
    obtain ⟨k0, v0⟩ := kv
    by_cases hk : k0 = k
    · rw [dictSet, if_pos hk, List.filter_cons, List.filter_cons]
      simp [hk, h]
    · rw [dictSet, if_neg hk, List.filter_cons, List.filter_cons, ih]

theorem encodeTag_dictSet_unrecognized {k : Str} (d : Dict) (v : PyVal)
    (h : recognizedKey k = false) : encodeTag (dictSet d k v) = encodeTag d := by
  unfold encodeTag
  rw [filter_recognized_dictSet d v h]

theorem dropWhile_fix_of_ne_nil (p : Char → Bool) (l m : Str)
    (hl : List.dropWhile p l = l) (hnil : l ≠ []) :
    List.dropWhile p (l ++ m) = l ++ m := by
  cases l with
  | nil => exact absurd rfl hnil
  | cons a t => exact dropWhile_cons_append_fix p a t m (head_keep_of_dropWhile_fix hl)

theorem strip_tail_fix (p : Char → Bool) (r m : Str)
    (hr : List.dropWhile p r.reverse = r.reverse) (hm : p '=' = false) :
    List.dropWhile p (r.reverse ++ ('=' :: m)) = r.reverse ++ ('=' :: m) := by
  cases hrc : r.reverse with
  | nil => simp [List.dropWhile_cons, hm]
  | cons b L =>
    rw [hrc] at hr
    exact dropWhile_cons_append_fix p b L _ (head_keep_of_dropWhile_fix hr)

/-! ## The claims

Batteries seals the `Rat` arithmetic operations against definitional
unfolding; concrete evaluation of the model on rational instants needs
them reducible again, locally to this section. -/

section ClaimProofs

attribute [local semireducible] Rat.add Rat.mul Rat.sub Rat.inv Rat.ofScientific

/-- C1 counterexample: the policy whose `req` value is the single space
`" "` has all four values free of `/` and `=`, yet decoding the encoded
tag does not give it back — the `.strip()` at snapshot construction
(line 34) removes the trailing space, so the decoded `req` is empty. -/
theorem roundtrip_strip_counterexample :
    decodeTag (encodeTag (polDict ['1'] [] [] [' '])) ≠
      some (polDict ['1'] [] [] [' ']) := by decide

/-- C1 (amended): for every policy whose four recognized values contain
neither `/` nor `=` and whose `req` value carries no trailing whitespace
(the `.strip()` applied to the raw tag at snapshot construction can only
touch the end of the final emitted value), decoding the string produced
by encoding the policy yields the policy back unchanged. -/
theorem decode_encode_roundtrip (g u o r : Str)
    (hg1 : '/' ∉ g) (hg2 : '=' ∉ g)
    (hu1 : '/' ∉ u) (hu2 : '=' ∉ u)
    (ho1 : '/' ∉ o) (ho2 : '=' ∉ o)
    (hr1 : '/' ∉ r) (hr2 : '=' ∉ r)
    (hr3 : List.dropWhile pyIsSpace r.reverse = r.reverse) :
    decodeTag (encodeTag (polDict g u o r)) = some (polDict g u o r) := by
  have hE : encodeTag (polDict g u o r) =
      (['g', 'r', 'p', '='] ++ g) ++ '/' :: ((['u', 's', 'e', 'r', '='] ++ u) ++
        '/' :: ((['o', 'f', 'f', '='] ++ o) ++ '/' :: (['r', 'e', 'q', '='] ++ r))) := rfl
  have hE2 : encodeTag (polDict g u o r) =
      (((['g', 'r', 'p', '='] ++ g) ++ '/' :: ((['u', 's', 'e', 'r', '='] ++ u) ++
        '/' :: ((['o', 'f', 'f', '='] ++ o) ++ ['/', 'r', 'e', 'q']))) ++ ['=']) ++ r := by
    rw [hE]
    simp [List.append_assoc]
  have hmA : '/' ∉ (['g', 'r', 'p', '='] ++ g : Str) := by
    intro hmem
    rcases List.mem_append.mp hmem with h | h
    · exact absurd h (by decide)
    · exact hg1 h
  have hmB : '/' ∉ (['u', 's', 'e', 'r', '='] ++ u : Str) := by
    intro hmem
    rcases List.mem_append.mp hmem with h | h
    · exact absurd h (by decide)
    · exact hu1 h
  have hmC : '/' ∉ (['o', 'f', 'f', '='] ++ o : Str) := by
    intro hmem
    rcases List.mem_append.mp hmem with h | h
    · exact absurd h (by decide)
    · exact ho1 h
  have hmD : '/' ∉ (['r', 'e', 'q', '='] ++ r : Str) := by
    intro hmem
    rcases List.mem_append.mp hmem with h | h
    · exact absurd h (by decide)
    · exact hr1 h
  have hfrontA : List.dropWhile pyIsSpace (['g', 'r', 'p', '='] ++ g) =
      ['g', 'r', 'p', '='] ++ g :=
    dropWhile_cons_append_fix pyIsSpace 'g' ['r', 'p', '='] g (by decide)
  have hfront : List.dropWhile pyIsSpace (encodeTag (polDict g u o r)) =
      encodeTag (polDict g u o r) := by
    rw [hE]
    exact dropWhile_fix_of_ne_nil _ _ _ hfrontA (by simp)
  have hback : List.dropWhile pyIsSpace (encodeTag (polDict g u o r)).reverse =
      (encodeTag (polDict g u o r)).reverse := by
    rw [hE2, List.reverse_append, List.reverse_append]
    exact strip_tail_fix pyIsSpace r _ hr3 (by decide)
  have hstrip : pyStrip (encodeTag (polDict g u o r)) = encodeTag (polDict g u o r) := by
    unfold pyStrip
    rw [hfront, hback, List.reverse_reverse]
  have hsplit : splitCh '/' (encodeTag (polDict g u o r)) =
      [['g', 'r', 'p', '='] ++ g, ['u', 's', 'e', 'r', '='] ++ u,
       ['o', 'f', 'f', '='] ++ o, ['r', 'e', 'q', '='] ++ r] := by
    rw [hE, splitCh_append hmA, splitCh_append hmB, splitCh_append hmC,
        splitCh_of_not_mem hmD]
  have hsg : splitEq (['g', 'r', 'p', '='] ++ g) = some (['g', 'r', 'p'], g) := by
    unfold splitEq
    rw [show (['g', 'r', 'p', '='] ++ g : Str) = ['g', 'r', 'p'] ++ '=' :: g from rfl,
        splitCh_append (by decide), splitCh_of_not_mem hg2]
  have hsu : splitEq (['u', 's', 'e', 'r', '='] ++ u) = some (['u', 's', 'e', 'r'], u) := by
    unfold splitEq
    rw [show (['u', 's', 'e', 'r', '='] ++ u : Str) = ['u', 's', 'e', 'r'] ++ '=' :: u from rfl,
        splitCh_append (by decide), splitCh_of_not_mem hu2]
  have hso : splitEq (['o', 'f', 'f', '='] ++ o) = some (['o', 'f', 'f'], o) := by
    unfold splitEq
    rw [show (['o', 'f', 'f', '='] ++ o : Str) = ['o', 'f', 'f'] ++ '=' :: o from rfl,
        splitCh_append (by decide), splitCh_of_not_mem ho2]
  have hsr : splitEq (['r', 'e', 'q', '='] ++ r) = some (['r', 'e', 'q'], r) := by
    unfold splitEq
    rw [show (['r', 'e', 'q', '='] ++ r : Str) = ['r', 'e', 'q'] ++ '=' :: r from rfl,
        splitCh_append (by decide), splitCh_of_not_mem hr2]
  have hpairs : splitPairs [['g', 'r', 'p', '='] ++ g, ['u', 's', 'e', 'r', '='] ++ u,
      ['o', 'f', 'f', '='] ++ o, ['r', 'e', 'q', '='] ++ r] =
      some [(['g', 'r', 'p'], g), (['u', 's', 'e', 'r'], u),
            (['o', 'f', 'f'], o), (['r', 'e', 'q'], r)] := by
    simp only [splitPairs, hsg, hsu, hso, hsr]
  unfold decodeTag
  rw [hstrip, if_neg (by rw [hE]; simp), hsplit, hpairs]
  rfl

/-- C1 witness: the round trip at a concrete policy with `/`-free,
`=`-free, whitespace-free values. -/
theorem decode_encode_roundtrip_witness :
    decodeTag (encodeTag (polDict ['2'] ['b'] ['x'] ['y'])) =
      some (polDict ['2'] ['b'] ['x'] ['y']) :=
  decode_encode_roundtrip _ _ _ _ (by decide) (by decide) (by decide) (by decide)
    (by decide) (by decide) (by decide) (by decide) (by decide)

/-- C2 counterexample: with `hourlyPrice = 30` and `hours = 9/10` the
projected total cost `30 * 9/10 = 27` meets the threshold 20, so the
claim requires the written deadline to be `now + 20/30` hours; but the
code's guard multiplies by `int(hours) = 0` (line 134), so no cap is
applied and the written deadline is `now + 54` minutes instead of
`now + 40`. -/
theorem cost_cap_counterexample :
    20 ≤ (30 : ℚ) * ((9 : ℚ) / 10) ∧
    getStr (update (mkInst ['i'] 16 30 CHEAPSKATE) nowW ['a']
        ((9 : ℚ) / 10) 0).1.cheapskate keyOff ≠
      strftimeMin (nowW + 60 * (20 / 30)) := by decide

/-- C2 (amended): on a user-initiated (`sysstart = 0`) accepted extend,
whenever `hourlyPrice * int(hours)` — with `hours` truncated toward zero
to an integer, as the code's guard computes it — meets or exceeds the
default cost threshold 20, the deadline written to the policy's `off` key
is `now + costThreshold/hourlyPrice` hours, formatted at minute
precision.  In particular, `hourlyPrice = 5`, `hours = 10` caps the
deadline to `now + 4` hours, not `now + 10`. -/
theorem update_cost_cap (i : Instance) (now : ℚ) (user : Str) (hours : ℚ)
    (hacc : (update i now user hours 0).2.1 = true)
    (hcost : 20 ≤ i.price * ((pyInt hours : ℤ) : ℚ)) :
    getStr (update i now user hours 0).1.cheapskate keyOff =
      strftimeMin (now + 60 * (20 / i.price)) := by
  cases hof : offLater i (now + 60 * hours) with
  | true =>
    rw [update, if_pos hof] at hacc
    simp at hacc
  | false =>
    rw [update, if_neg (by simp [hof])]
    unfold newCk
    rw [if_pos ⟨rfl, hcost⟩]
    exact getStr_dictSet_self _ _ _

/-- C2 witness: the spec's own numbers — price 5, hours 10, threshold 20 —
yield a stored deadline of `now + 20/5 = now + 4` hours. -/
theorem update_cost_cap_witness :
    getStr (update (mkInst ['i'] 16 5 CHEAPSKATE) nowW ['a'] 10 0).1.cheapskate keyOff =
      strftimeMin (nowW + 60 * (20 / (mkInst ['i'] 16 5 CHEAPSKATE).price)) :=
  update_cost_cap _ _ _ _ (by decide) (by decide)

/-- C3: on a system-triggered (`sysstart = 1`) accepted extend the cost
cap is never applied: the deadline written to the policy's `off` key is
`now + hours`, formatted at minute precision, for every instance and thus
regardless of the projected cost. -/
theorem update_system_uncapped (i : Instance) (now : ℚ) (user : Str) (hours : ℚ)
    (hacc : (update i now user hours 1).2.1 = true) :
    getStr (update i now user hours 1).1.cheapskate keyOff =
      strftimeMin (now + 60 * hours) := by
  cases hof : offLater i (now + 60 * hours) with
  | true =>
    rw [update, if_pos hof] at hacc
    simp at hacc
  | false =>
    rw [update, if_neg (by simp [hof])]
    unfold newCk
    rw [if_neg (fun h => one_ne_zero h.1)]
    exact getStr_dictSet_self _ _ _

/-- C3 witness: the spec's numbers — price 5, hours 10, system-triggered —
store `now + 10` hours. -/
theorem update_system_uncapped_witness :
    getStr (update (mkInst ['j'] 16 5 CHEAPSKATE) nowW ['s'] 10 1).1.cheapskate keyOff =
      strftimeMin (nowW + 60 * 10) :=
  update_system_uncapped _ _ _ _ (by decide)

/-- C4: when the stored `off` deadline parses to an instant strictly
later than `now + hours`, `update` returns `False` and leaves the
snapshot unchanged, issuing no start and no save. -/
theorem update_never_shortens (i : Instance) (now : ℚ) (user : Str) (hours : ℚ)
    (sysstart : Nat) (t : Nat)
    (hp : strptimeMin (getStr i.cheapskate keyOff) = some t)
    (hl : now + 60 * hours < (t : ℚ)) :
    update i now user hours sysstart = (i, false, []) := by
  have h : offLater i (now + 60 * hours) = true := by
    unfold offLater
    rw [hp]
    exact decide_eq_true hl
  rw [update, if_pos h]

/-- C4 witness: an instance already scheduled to 2031-01-01T00:00 rejects
a one-hour extension requested in 2026. -/
theorem update_never_shortens_witness :
    update (mkInst ['k'] 16 5 (polDict ['0'] [] offFuture [])) nowW ['u'] 1 0 =
      (mkInst ['k'] 16 5 (polDict ['0'] [] offFuture []), false, []) :=
  update_never_shortens _ _ _ _ _ (minutesOfYMDHM 2031 1 1 0 0) (by decide) (by decide)

/-- C9 counterexample: on an accepted extension with `hours = 10` the
`req` field is not the request time `now`: line 133 stores
`reqtime = now + hours` instead. -/
theorem requestedAt_counterexample :
    (update (mkInst ['i'] 16 5 CHEAPSKATE) nowW ['b'] 10 0).2.1 = true ∧
    getStr (update (mkInst ['i'] 16 5 CHEAPSKATE) nowW ['b'] 10 0).1.cheapskate keyReq ≠
      strftimeMin nowW := by decide

/-- C9 (amended): on every accepted extend the policy's `user` field is
set to the supplied user and the `req` field is set to
`now + hours` — the requested new deadline (the value line 133 actually
stores), not the time the extension was requested — at minute
precision. -/
theorem update_sets_requester (i : Instance) (now : ℚ) (user : Str) (hours : ℚ)
    (sysstart : Nat) (hacc : (update i now user hours sysstart).2.1 = true) :
    getStr (update i now user hours sysstart).1.cheapskate keyUser = user ∧
    getStr (update i now user hours sysstart).1.cheapskate keyReq =
      strftimeMin (now + 60 * hours) := by
  cases hof : offLater i (now + 60 * hours) with
  | true =>
    rw [update, if_pos hof] at hacc
    simp at hacc
  | false =>
    rw [update, if_neg (by simp [hof])]
    unfold newCk
    constructor
    · split
      · rw [getStr_dictSet_ne _ _ (by decide), getStr_dictSet_ne _ _ (by decide)]
        exact getStr_dictSet_self _ _ _
      · rw [getStr_dictSet_ne _ _ (by decide), getStr_dictSet_ne _ _ (by decide)]
        exact getStr_dictSet_self _ _ _
    · split
      · rw [getStr_dictSet_ne _ _ (by decide)]
        exact getStr_dictSet_self _ _ _
      · rw [getStr_dictSet_ne _ _ (by decide)]
        exact getStr_dictSet_self _ _ _

/-- C9 witness: a concrete accepted extension records the requesting user
and `now + hours` in `req`. -/
theorem update_sets_requester_witness :
    getStr (update (mkInst ['m'] 16 5 CHEAPSKATE) nowW ['b'] 10 0).1.cheapskate keyUser =
      ['b'] ∧
    getStr (update (mkInst ['m'] 16 5 CHEAPSKATE) nowW ['b'] 10 0).1.cheapskate keyReq =
      strftimeMin (nowW + 60 * 10) :=
  update_sets_requester _ _ _ _ _ (by decide)

/-- C5: `shutdown_due` returns exactly the listed instances whose group is
not `"1"` (DefaultOn), whose state code is 16 (running), and whose stored
`off` parses to an instant strictly before `now + lookaheadHours`; in
particular every DefaultOn instance and every instance with an empty or
malformed `off` is excluded. -/
theorem shutdown_due_spec (insts : List Instance) (now hours : ℚ) (i : Instance) :
    i ∈ shutdown_due insts now hours ↔
      i ∈ insts ∧ getStr i.cheapskate keyGrp ≠ ['1'] ∧ i.stateCode = 16 ∧
        ∃ t : Nat, strptimeMin (getStr i.cheapskate keyOff) = some t ∧
          (t : ℚ) < now + 60 * hours := by
  rw [shutdown_due, List.mem_filter]
  constructor
  · rintro ⟨hmem, hdue⟩
    refine ⟨hmem, ?_⟩
    unfold dueForShutdown at hdue
    rcases hoff : strptimeMin (getStr i.cheapskate keyOff) with _ | t
    · rw [hoff] at hdue
      simp at hdue
    · rw [hoff] at hdue
      simp only [Bool.and_eq_true, Bool.not_eq_true', beq_eq_false_iff_ne,
        beq_iff_eq, decide_eq_true_eq] at hdue
      exact ⟨hdue.1.1, hdue.1.2, t, rfl, hdue.2⟩
  · rintro ⟨hmem, hg, hs, t, hoff, hlt⟩
    refine ⟨hmem, ?_⟩
    unfold dueForShutdown
    simp only [hoff]
    simp [hg, hs, hlt]

/-- C5 witness: a running group-`"0"` instance with a parseable past
deadline is listed. -/
theorem shutdown_due_spec_witness :
    mkInst ['h'] 16 5 (polDict ['0'] [] offPast []) ∈
      shutdown_due [mkInst ['h'] 16 5 (polDict ['0'] [] offPast [])] nowW 0 :=
  (shutdown_due_spec _ _ _ _).mpr
    ⟨by decide, by decide, by decide,
     ⟨minutesOfYMDHM 2026 10 12 8 0, by decide, by decide⟩⟩

/-- C6 counterexample: at exactly 18:30 on a Monday — outside the
half-open window `[06:30, 18:30)` claimed by the spec — the code's
`dt.now().time() > dtend.time()` guard (line 112) does not fire, so a
stopped BusinessHours instance is collected and started rather than the
function returning empty. -/
theorem business_hours_window_counterexample :
    weekdayOf nMon1830 ∈ BUSINESSDAYSOFWEEK ∧
    todMinutes nMon1830 = 1110 ∧
    (start_business_hours [mkInst ['x'] 80 5 (polDict ['2'] [] [] [])] nMon1830).1 =
      some [['x']] ∧
    (start_business_hours [mkInst ['x'] 80 5 (polDict ['2'] [] [] [])] nMon1830).2.2 ≠ [] := by
  decide

/-- C6 (amended): `start_business_hours` returns empty — extending and
starting nothing — whenever today is not a business day (Monday-Friday)
or the current time is outside the closed window
`[businessHourStart, businessHourEnd]`: strictly before 06:30 or strictly
after 18:30 (the end minute itself is still inside, since line 112 tests
with a strict `>`); on a Saturday it returns empty regardless of instance
states. -/
theorem business_hours_guards (insts : List Instance) (now : ℚ)
    (h : weekdayOf now ∉ BUSINESSDAYSOFWEEK ∨ todMinutes now < 390 ∨
      todMinutes now > 1110) :
    start_business_hours insts now = (none, insts, []) := by
  unfold start_business_hours
  rcases h with h | h | h
  · rw [if_pos h]
  · by_cases h1 : weekdayOf now ∉ BUSINESSDAYSOFWEEK
    · rw [if_pos h1]
    · rw [if_neg h1, if_pos h]
  · by_cases h1 : weekdayOf now ∉ BUSINESSDAYSOFWEEK
    · rw [if_pos h1]
    · rw [if_neg h1]
      by_cases h2 : todMinutes now < 390
      · rw [if_pos h2]
      · rw [if_neg h2, if_pos h]

/-- C6 witness: on a Saturday noon nothing is collected, updated or
started, even with a stopped BusinessHours instance present. -/
theorem business_hours_guards_witness :
    start_business_hours [mkInst ['w'] 80 5 (polDict ['2'] [] [] [])] nSat =
      (none, [mkInst ['w'] 80 5 (polDict ['2'] [] [] [])], []) :=
  business_hours_guards _ _ (Or.inl (by decide))

/-- C7: `shutdown` on a group-`"1"` (DefaultOn) instance is a no-op
returning the not-eligible result; on a group-`"0"`/`"2"` instance whose
stored `off` parses to an instant before `now` it issues a stop, persists
the policy and reports it stopped; with `off` after `now` it issues
nothing and defers, carrying the stored offtime. -/
theorem shutdown_spec (i : Instance) (now : ℚ) :
    (getStr i.cheapskate keyGrp = ['1'] →
      shutdown i now = some (.notEligible, [])) ∧
    (∀ t : Nat,
      getStr i.cheapskate keyGrp = ['0'] ∨ getStr i.cheapskate keyGrp = ['2'] →
      strptimeMin (getStr i.cheapskate keyOff) = some t →
      ((t : ℚ) < now →
        shutdown i now = some (.stopped,
          [.stopInstances i.instance_id,
           .createTags i.instance_id (encodeTag i.cheapskate), .cacheDel])) ∧
      (now < (t : ℚ) →
        shutdown i now = some (.deferred (getStr i.cheapskate keyOff), []))) := by
  constructor
  · intro h1
    unfold shutdown
    rw [if_pos h1]
  · intro t hg hp
    have hne : getStr i.cheapskate keyGrp ≠ ['1'] := by
      rcases hg with h | h <;> rw [h] <;> decide
    constructor
    · intro hlt
      unfold shutdown
      rw [if_neg hne, if_pos hg]
      simp only [hp]
      rw [if_pos hlt]
      rfl
    · intro hgt
      unfold shutdown
      rw [if_neg hne, if_pos hg]
      simp only [hp]
      rw [if_neg (not_lt.mpr (le_of_lt hgt))]

/-- C7 witness: a group-`"0"` instance with a past deadline is stopped and
its policy saved. -/
theorem shutdown_spec_witness :
    shutdown (mkInst ['p'] 16 5 (polDict ['0'] [] offPast [])) nowW =
      some (.stopped,
        [.stopInstances ['p'],
         .createTags ['p'] (encodeTag (polDict ['0'] [] offPast [])), .cacheDel]) :=
  ((shutdown_spec (mkInst ['p'] 16 5 (polDict ['0'] [] offPast [])) nowW).2
    (minutesOfYMDHM 2026 10 12 8 0) (Or.inl (by decide)) (by decide)).1 (by decide)

/-- C8 counterexample: `shutdown` on a group-`"0"` instance whose stored
`off` is empty raises `ValueError` — the `strptime` on line 149 has no
`try`/`except` around it — contradicting the claim that every operation
reading a stored deadline treats a parse failure as an absent
constraint.  `none` is the model's rendering of the uncaught
exception. -/
theorem shutdown_raises_counterexample :
    shutdown (mkInst ['q'] 16 5 (polDict ['0'] [] [] [])) nowW = none := by decide

/-- C8 (amended): in `shutdown_due` and `update` an empty or unparseable
stored `off` never raises — the instance is merely excluded from the due
list, leaving the rest of the batch intact, and the extension proceeds as
if unconstrained — but in `shutdown` on a group-`"0"`/`"2"` instance the
unguarded parse raises, so the parse failure is not harmless there. -/
theorem deadline_parse_failure (i : Instance) (now hours : ℚ) (user : Str)
    (sysstart : Nat) (pre post : List Instance)
    (hbad : strptimeMin (getStr i.cheapskate keyOff) = none) :
    dueForShutdown i now hours = false ∧
    shutdown_due (pre ++ i :: post) now hours =
      shutdown_due pre now hours ++ shutdown_due post now hours ∧
    (update i now user hours sysstart).2.1 = true ∧
    (getStr i.cheapskate keyGrp = ['0'] ∨ getStr i.cheapskate keyGrp = ['2'] →
      shutdown i now = none) := by
  have hdue : dueForShutdown i now hours = false := by
    unfold dueForShutdown
    simp only [hbad]
    simp
  refine ⟨hdue, ?_, ?_, ?_⟩
  · unfold shutdown_due
    rw [List.filter_append, List.filter_cons]
    simp [hdue]
  · have hof : offLater i (now + 60 * hours) = false := by
      unfold offLater
      simp only [hbad]
    rw [update, if_neg (by simp [hof])]
  · intro hg
    have hne : getStr i.cheapskate keyGrp ≠ ['1'] := by
      rcases hg with h | h <;> rw [h] <;> decide
    unfold shutdown
    rw [if_neg hne, if_pos hg]
    simp only [hbad]

/-- C8 witness: an instance with the default empty `off` is skipped by
`shutdown_due` without disturbing the batch and accepted by `update`. -/
theorem deadline_parse_failure_witness :
    dueForShutdown (mkInst ['r'] 16 5 CHEAPSKATE) nowW 0 = false ∧
    shutdown_due ([] ++ mkInst ['r'] 16 5 CHEAPSKATE :: []) nowW 0 =
      shutdown_due [] nowW 0 ++ shutdown_due [] nowW 0 ∧
    (update (mkInst ['r'] 16 5 CHEAPSKATE) nowW ['u'] 1 0).2.1 = true ∧
    (getStr (mkInst ['r'] 16 5 CHEAPSKATE).cheapskate keyGrp = ['0'] ∨
       getStr (mkInst ['r'] 16 5 CHEAPSKATE).cheapskate keyGrp = ['2'] →
      shutdown (mkInst ['r'] 16 5 CHEAPSKATE) nowW = none) :=
  deadline_parse_failure (mkInst ['r'] 16 5 CHEAPSKATE) nowW 0 ['u'] 0 [] [] (by decide)

/-- C10: `as_dict` returns the snapshot's own policy dict (the functional
rendering of the aliasing on line 71): the returned mapping equals the
updated snapshot's stored policy, which now additionally carries the
derived keys `name`, `id`, `status`, `type`, `launchtime`, `hourlycost`
and `product`, while the re-encoded tag is unchanged because `save`'s
whitelist filters all of them out. -/
theorem as_dict_mutates_policy (i : Instance) :
    (as_dict i).2 = (as_dict i).1.cheapskate ∧
    dictHasKey (as_dict i).1.cheapskate ['n', 'a', 'm', 'e'] = true ∧
    dictHasKey (as_dict i).1.cheapskate ['i', 'd'] = true ∧
    dictHasKey (as_dict i).1.cheapskate ['s', 't', 'a', 't', 'u', 's'] = true ∧
    dictHasKey (as_dict i).1.cheapskate ['t', 'y', 'p', 'e'] = true ∧
    dictHasKey (as_dict i).1.cheapskate
      ['l', 'a', 'u', 'n', 'c', 'h', 't', 'i', 'm', 'e'] = true ∧
    dictHasKey (as_dict i).1.cheapskate
      ['h', 'o', 'u', 'r', 'l', 'y', 'c', 'o', 's', 't'] = true ∧
    dictHasKey (as_dict i).1.cheapskate ['p', 'r', 'o', 'd', 'u', 'c', 't'] = true ∧
    encodeTag (as_dict i).1.cheapskate = encodeTag i.cheapskate := by
  simp only [as_dict]
  refine ⟨trivial, ?_, ?_, ?_, ?_, ?_, ?_, ?_, ?_⟩
  · exact dictHasKey_dictSet_mono _ _ _ (dictHasKey_dictSet_mono _ _ _
      (dictHasKey_dictSet_mono _ _ _ (dictHasKey_dictSet_mono _ _ _
        (dictHasKey_dictSet_mono _ _ _ (dictHasKey_dictSet_mono _ _ _
          (dictHasKey_dictSet_self _ _ _))))))
  · exact dictHasKey_dictSet_mono _ _ _ (dictHasKey_dictSet_mono _ _ _
      (dictHasKey_dictSet_mono _ _ _ (dictHasKey_dictSet_mono _ _ _
        (dictHasKey_dictSet_mono _ _ _ (dictHasKey_dictSet_self _ _ _)))))
  · exact dictHasKey_dictSet_mono _ _ _ (dictHasKey_dictSet_mono _ _ _
      (dictHasKey_dictSet_mono _ _ _ (dictHasKey_dictSet_mono _ _ _
        (dictHasKey_dictSet_self _ _ _))))
  · exact dictHasKey_dictSet_mono _ _ _ (dictHasKey_dictSet_mono _ _ _
      (dictHasKey_dictSet_mono _ _ _ (dictHasKey_dictSet_self _ _ _)))
  · exact dictHasKey_dictSet_mono _ _ _ (dictHasKey_dictSet_mono _ _ _
      (dictHasKey_dictSet_self _ _ _))
  · exact dictHasKey_dictSet_mono _ _ _ (dictHasKey_dictSet_self _ _ _)
  · exact dictHasKey_dictSet_self _ _ _
  · rw [encodeTag_dictSet_unrecognized _ _ (by decide),
      encodeTag_dictSet_unrecognized _ _ (by decide),
      encodeTag_dictSet_unrecognized _ _ (by decide),
      encodeTag_dictSet_unrecognized _ _ (by decide),
      encodeTag_dictSet_unrecognized _ _ (by decide),
      encodeTag_dictSet_unrecognized _ _ (by decide),
      encodeTag_dictSet_unrecognized _ _ (by decide)]

end ClaimProofs

end Cheapskate
